import Mathlib

/-!
# Verification of the `finish` action of the velocity animation engine

Shallow embedding of `src/packages/core/src/actions/finish.ts`: the
out-of-band "finish" operation that force-completes animation calls, together
with the pieces of scheduler state it manipulates.

The embedding models the scheduler's single intrusive doubly-linked list
(`State.first` … `State.last`, with `State.firstNew` pointing at the first
still-unvalidated call) as two adjacent list segments `active ++ staged`
(`State.first` is the head of the concatenation, `State.firstNew` the head of
`staged`).  External collaborators that live outside the excerpted source
(`validateTweens`, `completeCall`, `setPropertyValue`, `beginCall`,
`validateQueue`) are modelled from the spec, as documented on each
definition; their observable effects are recorded in an event trace.

Numeric tween values are modelled by their string rendering (JavaScript's
`+=` coerces a number to its decimal string), and `null`/`undefined`
keyframe entries by `Option.none`.
-/

/-- A runtime queue value: a named queue, or the literal `false`
("no queue" lane). -/
inductive QVal where
  | name (s : String)
  | noQueue
deriving DecidableEq, Repr

/-- One tween's `sequence`: the optional `pattern` template (absent when the
source value is falsy) and the ordered keyframes.  Each keyframe holds, per
pattern index, either a value (by its string rendering) or `none` for
`null`/`undefined` ("reuse the template literal at this index"). -/
structure TweenSeq where
  pattern : Option (List String)
  frames : List (List (Option String))
deriving DecidableEq, Repr

/-- One property's tween: its resolved `sequence` and the external setter
capability `fn` (opaque here, identified by a number). -/
structure Tween where
  sequence : TweenSeq
  fn : Nat
deriving DecidableEq, Repr

/-- The options object shared by every call of one group: the queue override,
the `_started` counter, the `_first` back-reference (by call id) and whether a
`begin` callback is still attached. -/
structure Options where
  queue : Option QVal
  started : Nat
  first : Option Nat
  begin : Bool
deriving DecidableEq, Repr

/-- One `AnimationCall`.  `element` and `optionsId` identify the target and
the shared options.  `validated` models the resolved/EXPANDED state that
`validateTweens` establishes.  `timeStart` (accumulated elapsed-time origin)
is carried but never read by the finish action.  `onComplete` models, as
data, the calls which the user's `complete` callback enqueues into the
staging list when `completeCall` retires this call (the re-entrancy scenario
of the spec's concurrency section). -/
structure Call where
  id : Nat
  element : Nat
  tweens : List (String × Tween)
  queue : Option QVal
  optionsId : Nat
  flags : Nat
  validated : Bool
  timeStart : Nat
  onComplete : List Call

/-- The STARTED bit of the `_flags` bitmask (modelled from the spec's flag
set; the concrete bit value is irrelevant, only its presence is tested). -/
def STARTED : Nat := 4

/-- Observable effects, in order of occurrence: `beginEv` is an invocation of
`beginCall` (firing `options.begin`), `setValue` an invocation of
`setPropertyValue`, `complete` an invocation of `completeCall`, `thenChain`
chaining the promise resolver onto an animation's own `then`, `resolveCall` a
direct invocation of the promise resolver. -/
inductive Event where
  | beginEv (callId optionsId element : Nat)
  | setValue (element : Nat) (property value : String) (fn : Nat)
  | complete (callId element : Nat)
  | thenChain
  | resolveCall
deriving DecidableEq, Repr

/-- The scheduler state touched by finish: the active list segment, the
staged segment (headed by `State.firstNew`), the store of shared options
objects (by id) and the trace of observable effects so far. -/
structure SchedState where
  active : List Call
  staged : List Call
  opts : Nat → Options
  trace : List Event

/-- The index-by-index pattern walk of the finalization loop in
`checkAnimationShouldBeFinished`: at each pattern index, substitute the final
keyframe's value when it is non-null, else the pattern's literal; indices
beyond the keyframe's length read `undefined` and hence keep the literal. -/
def patternSubst : List String → List (Option String) → String
  | [], _ => ""
  | p :: ps, [] => p ++ patternSubst ps []
  | p :: ps, e :: es => (match e with | none => p | some v => v) ++ patternSubst ps es

/-- The value committed for one tween by the finalization loop: `""` when the
pattern is absent, else the pattern walk against the final keyframe
(`sequence[sequence.length - 1]`). -/
def finishValue (t : Tween) : String :=
  match t.sequence.pattern with
  | none => ""
  | some pat => patternSubst pat (t.sequence.frames.getLastD [])

/-- The effective queue of a call:
`animation.queue ?? animation.options?.queue ?? defaultQueue`. -/
def effQueue (animation : Call) (options : Options) (defaultQueue : QVal) : QVal :=
  animation.queue.getD (options.queue.getD defaultQueue)

/-- Marks the call with the given id as tween-resolved. -/
def validateUpd (aid : Nat) (c : Call) : Call :=
  if c.id = aid then { c with validated := true } else c

/-- Modelled from the spec: `validateTweens(call)` lazily resolves any
still-unresolved tween sequence of the call (modelled by the `validated`
flag) and is idempotent; when the call is the head of the staging list it
also advances `State.firstNew` past it (this drain step is what makes the
`while (State.firstNew)` loop in `finish` terminate — the call stays in the
same physical list, only the new/validated boundary moves). -/
def validateTweensState (s : SchedState) (aid : Nat) : SchedState :=
  let s' :=
    if (s.staged.head?.map Call.id) = some aid then
      { s with active := s.active ++ s.staged.take 1, staged := s.staged.drop 1 }
    else s
  { s' with
      active := s'.active.map (validateUpd aid),
      staged := s'.staged.map (validateUpd aid) }

/-- `animation._flags |= AnimationFlags.STARTED`, applied to the call object
wherever it currently lives. -/
def markStarted (s : SchedState) (aid : Nat) : SchedState :=
  let upd := fun (c : Call) => if c.id = aid then { c with flags := c.flags ||| STARTED } else c
  { s with active := s.active.map upd, staged := s.staged.map upd }

/-- The begin-once block of `checkAnimationShouldBeFinished`: when the call
is not yet STARTED, post-increment `options._started`; on the 0 → 1
transition record `options._first = animation` and, when a `begin` callback
is attached, invoke it (via `beginCall`) and clear it; finally mark the call
STARTED. -/
def beginStep (s : SchedState) (animation : Call) : SchedState :=
  if animation.flags &&& STARTED = 0 then
    let options := s.opts animation.optionsId
    let s' :=
      if options.started = 0 then
        if options.begin then
          { s with
              opts := fun o =>
                if o = animation.optionsId then
                  { options with started := options.started + 1,
                                 first := some animation.id, begin := false }
                else s.opts o,
              trace := s.trace ++ [Event.beginEv animation.id animation.optionsId animation.element] }
        else
          { s with
              opts := fun o =>
                if o = animation.optionsId then
                  { options with started := options.started + 1, first := some animation.id }
                else s.opts o }
      else
        { s with
            opts := fun o =>
              if o = animation.optionsId then { options with started := options.started + 1 }
              else s.opts o }
    markStarted s' animation.id
  else s

/-- The finalization loop of `checkAnimationShouldBeFinished`: for every
property of the call's tween mapping, commit the finish value via
`setPropertyValue(animation.element, property, currentValue, tween.fn)`. -/
def tweenLoop (el : Nat) (tweens : List (String × Tween)) (s : SchedState) : SchedState :=
  tweens.foldl
    (fun acc pt =>
      { acc with trace := acc.trace ++ [Event.setValue el pt.1 (finishValue pt.2) pt.2.fn] })
    s

/-- Modelled from the spec: `completeCall(call)` unlinks the call from
whichever list holds it, fires the group-completion protocol (whose user
`complete` callback may enqueue new calls — modelled as the call's
`onComplete` data being appended to the staging list) and promotes the next
queued call; `Queue Index` promotion and exact last-member detection live in
the external collaborator and are not observed by any property below, so the
model records the invocation in the trace and performs the unlink and the
re-entrant enqueue. -/
def completeCallState (s : SchedState) (animation : Call) : SchedState :=
  { s with
      active := s.active.filter (fun c => c.id ≠ animation.id),
      staged := s.staged.filter (fun c => c.id ≠ animation.id) ++ animation.onComplete,
      trace := s.trace ++ [Event.complete animation.id animation.element] }

/-- `checkAnimationShouldBeFinished(animation, queueName, defaultQueue)`:
validate the tweens, and when no queue filter was given or the call's
effective queue matches it, run the begin-once block, force-commit every
tween's final value, and call `completeCall`. -/
def checkAnimationShouldBeFinished (s : SchedState) (animation : Call)
    (queueName : Option QVal) (defaultQueue : QVal) : SchedState :=
  let s1 := validateTweensState s animation.id
  if queueName = none ∨
     queueName = some (effQueue animation (s1.opts animation.optionsId) defaultQueue) then
    completeCallState (tweenLoop animation.element animation.tweens (beginStep s1 animation)) animation
  else s1

/-- The value bound to `this.elements` of a finish invocation: absent, an
array-like set of elements (by id), or a bound `IAnimation` (itself
array-like over its elements `es`, carrying `velocity.animations` when the
invocation came from a chained call, and possibly a `then` method). -/
inductive Elements where
  | undef
  | elems (es : List Nat)
  | anim (animations : Option (List Call)) (es : List Nat) (hasThen : Bool)

/-- `elements.length` (with absent elements counting as length 0, matching
the `!elements || !elements.length` guard). -/
def elemLength : Elements → Nat
  | .undef => 0
  | .elems es => es.length
  | .anim _ es _ => es.length

/-- `!elements` — true when the invocation had no element set at all. -/
def elemAbsent : Elements → Bool
  | .undef => true
  | _ => false

/-- `elements.includes(element)` over the array-like element set. -/
def elemIncludesB : Elements → Nat → Bool
  | .undef, _ => false
  | .elems es, e => es.contains e
  | .anim _ es _, e => es.contains e

/-- Modelled from the spec: `validateQueue(value, true)` normalizes the
public queue argument — a string or the literal `false` pass through, and an
omitted argument or the literal `true` (the "ignore queue filtering"
shorthand) yield `undefined`. -/
def validateQueue : Option (String ⊕ Bool) → Option QVal
  | some (Sum.inl s) => some (QVal.name s)
  | some (Sum.inr false) => some QVal.noQueue
  | some (Sum.inr true) => none
  | none => none

/-- Dereference an `AnimationCall` pointer (by id) against the physical list
`active ++ staged`. -/
def findCall (s : SchedState) (aid : Nat) : Option Call :=
  (s.active ++ s.staged).find? (fun c => c.id = aid)

/-- `activeCall._next`: the id of the node after the one with id `aid` in the
physical list. -/
def nextIdOf : List Call → Nat → Option Nat
  | [], _ => none
  | c :: rest, aid => if c.id = aid then (rest.head?).map Call.id else nextIdOf rest aid

/-- The `while (State.firstNew) { validateTweens(State.firstNew); }` drain
loop, fuelled (each step pops the staged head, so fuel `s.staged.length`
drains completely). -/
def drainNewFuel : Nat → SchedState → SchedState
  | 0, s => s
  | fuel + 1, s =>
    match s.staged.head? with
    | none => s
    | some b => drainNewFuel fuel (validateTweensState s b.id)

/-- The global traversal of `finish`: starting from `State.first`, while the
current pointer is non-null and (when `finishAll` is unset) has not reached
`State.firstNew`, capture `nextCall = activeCall._next`, apply the finish
check when the element filter passes, then advance to
`nextCall ?? State.firstNew`.  Fuelled because termination rests on
`completeCall` unlinking each finished node, which the shallow embedding
does not prove; every property below holds for arbitrary fuel. -/
def finishLoop : Nat → SchedState → Option Nat → Elements → Option QVal → QVal → Bool → SchedState
  | 0, s, _, _, _, _, _ => s
  | fuel + 1, s, curr, elements, queueName, defaultQueue, finishAll =>
    match curr with
    | none => s
    | some aid =>
      if finishAll = false ∧ (s.staged.head?.map Call.id) = some aid then s
      else
        match findCall s aid with
        | none => s
        | some activeCall =>
          let nextCall := nextIdOf (s.active ++ s.staged) aid
          let s' :=
            if elemAbsent elements || elemIncludesB elements activeCall.element then
              checkAnimationShouldBeFinished s activeCall queueName defaultQueue
            else s
          finishLoop fuel s' (nextCall <|> (s'.staged.head?.map Call.id))
            elements queueName defaultQueue finishAll

/-- The `finish` action.  `maybeQueueName` is the raw public argument
(string, boolean or omitted), `finishAll` the raw flag, `defaultQueue` the
process default (`defaults.queue`), `promiseHandler`/`hasResolver` whether a
promise handler with a `_resolver` accompanies the invocation.  An empty or
absent element set returns immediately; a bound animation set iterates
exactly its own `velocity.animations`; otherwise the staged list is drained
by validation and the global active list is traversed. -/
def finish (fuel : Nat) (s : SchedState) (elements : Elements)
    (promiseHandler hasResolver : Bool) (maybeQueueName : Option (String ⊕ Bool))
    (finishAll : Bool) (defaultQueue : QVal) : SchedState :=
  let queueName := validateQueue maybeQueueName
  if elemLength elements = 0 then s
  else
    let finishAll := if maybeQueueName = some (Sum.inr true) then true else finishAll
    let s' :=
      match elements with
      | .anim (some animations) _ _ =>
        animations.foldl
          (fun acc a => checkAnimationShouldBeFinished acc a queueName defaultQueue) s
      | _ =>
        let s1 := drainNewFuel s.staged.length s
        finishLoop fuel s1 (((s1.active ++ s1.staged).head?).map Call.id)
          elements queueName defaultQueue finishAll
    if promiseHandler then
      match elements with
      | .anim (some _) _ true => { s' with trace := s'.trace ++ [Event.thenChain] }
      | _ =>
        if hasResolver then { s' with trace := s'.trace ++ [Event.resolveCall] } else s'
    else s'

/-- Number of `beginCall` invocations recorded for the options object `o`. -/
def countBegin (tr : List Event) (o : Nat) : Nat :=
  (tr.filter (fun e => match e with | .beginEv _ oid _ => oid = o | _ => false)).length

/-- Number of `completeCall` invocations recorded for the call id `cid`. -/
def countComplete (tr : List Event) (cid : Nat) : Nat :=
  (tr.filter (fun e => match e with | .complete c _ => c = cid | _ => false)).length

/-- Number of `setPropertyValue` commits recorded for element `el` and
property `p`. -/
def countSet (tr : List Event) (el : Nat) (p : String) : Nat :=
  (tr.filter (fun e => match e with | .setValue e2 p2 _ _ => e2 = el ∧ p2 = p | _ => false)).length

/-- Eligibility of a call under a queue filter: no filter, or the filter
equals the call's effective queue. -/
abbrev Eligible (s : SchedState) (a : Call) (q : Option QVal) (d : QVal) : Prop :=
  q = none ∨ q = some (effQueue a (s.opts a.optionsId) d)

/-- Events attributable to the single call `a`. -/
def EventOf (a : Call) : Event → Prop
  | .beginEv cid oid el => cid = a.id ∧ oid = a.optionsId ∧ el = a.element
  | .setValue el _ _ _ => el = a.element
  | .complete cid el => cid = a.id ∧ el = a.element
  | .thenChain => False
  | .resolveCall => False

/-- Events attributable to some call of the set `l` (promise plumbing events
are unattributed). -/
def EventOfAny (l : List Call) : Event → Prop
  | .beginEv cid _ _ => cid ∈ l.map Call.id
  | .setValue el _ _ _ => el ∈ l.map Call.element
  | .complete cid _ => cid ∈ l.map Call.id
  | .thenChain => True
  | .resolveCall => True

/-- Events whose target element lies in the element set `es` (promise
plumbing events are unattributed). -/
def EventElemIn (es : List Nat) : Event → Prop
  | .beginEv _ _ el => el ∈ es
  | .setValue el _ _ _ => el ∈ es
  | .complete _ el => el ∈ es
  | .thenChain => True
  | .resolveCall => True

/-- The begin-once invariant over one scheduler state: every options object
has seen at most one `beginCall`, and none at all while its `begin`
callback is still attached. -/
def BeginInv (s : SchedState) : Prop :=
  ∀ o, countBegin s.trace o ≤ 1 ∧ ((s.opts o).begin = true → countBegin s.trace o = 0)

/-- A sequence of applications of the finish check, each with its own queue
filter and default queue (the order in which a group's calls get finished is
arbitrary). -/
def runChecks (s : SchedState) (il : List (Call × Option QVal × QVal)) : SchedState :=
  il.foldl (fun acc i => checkAnimationShouldBeFinished acc i.1 i.2.1 i.2.2) s

/-- Example tween for property `x`: pattern `["", "px"]`, single keyframe
`[100]` — the spec's own worked example. -/
def exTween : Tween := ⟨⟨some ["", "px"], [[some "100"]]⟩, 7⟩

/-- Example tween whose sequence carries no pattern. -/
def exTweenNoPat : Tween := ⟨⟨none, [[some "100"]]⟩, 8⟩

/-- Example options object with no begin callback attached. -/
def exOpts : Options := ⟨none, 0, none, false⟩

/-- Example call on element 10 animating property `x`. -/
def exCall : Call := ⟨1, 10, [("x", exTween)], none, 0, 0, true, 0, []⟩

/-- Example scheduler state with `exCall` active. -/
def exState : SchedState := ⟨[exCall], [], fun _ => exOpts, []⟩

/-- Example call `B`, enqueued mid-pass by `exCallA`'s complete callback. -/
def exCallB : Call := ⟨2, 20, [], none, 1, 0, false, 0, []⟩

/-- Example call `A`, active before a global finish pass, whose complete
callback enqueues `exCallB`. -/
def exCallA : Call := ⟨1, 10, [("x", exTween)], none, 0, 0, true, 0, [exCallB]⟩

/-- Scheduler state for the firstNew-boundary scenario: only `exCallA`
active, nothing staged. -/
def exState4 : SchedState := ⟨[exCallA], [], fun _ => exOpts, []⟩

/-- `exCall` as it stands after a first finish pass: its STARTED flag is
set (the call object itself retains its other fields). -/
def exCallStarted : Call := ⟨1, 10, [("x", exTween)], none, 0, STARTED, true, 0, []⟩

/-- Example call animating property `y` with a pattern-less tween. -/
def exCallNoPat : Call := ⟨3, 11, [("y", exTweenNoPat)], none, 2, 0, true, 0, []⟩

/-- Scheduler state holding the pattern-less call. -/
def exState9 : SchedState := ⟨[exCallNoPat], [], fun _ => exOpts, []⟩

/-- Scheduler state whose only active call (id 2) is unrelated to the bound
set used in the C7 scenario. -/
def exState7 : SchedState := ⟨[exCallB], [], fun _ => exOpts, []⟩

/-- An active call whose tweens are not yet resolved (`validated = false`). -/
def exCallUnvalidated : Call := ⟨5, 12, [("x", exTween)], none, 0, 0, false, 0, []⟩

/-- Scheduler state holding the unresolved call. -/
def exState6 : SchedState := ⟨[exCallUnvalidated], [], fun _ => exOpts, []⟩

theorem validateTweensState_trace (s : SchedState) (aid : Nat) :
    (validateTweensState s aid).trace = s.trace := by
  simp only [validateTweensState]
  split <;> rfl

theorem validateTweensState_opts (s : SchedState) (aid : Nat) :
    (validateTweensState s aid).opts = s.opts := by
  simp only [validateTweensState]
  split <;> rfl

theorem markStarted_trace (s : SchedState) (aid : Nat) :
    (markStarted s aid).trace = s.trace := rfl

theorem markStarted_opts (s : SchedState) (aid : Nat) :
    (markStarted s aid).opts = s.opts := rfl

theorem tweenLoop_cons (el : Nat) (pt : String × Tween) (l : List (String × Tween))
    (s : SchedState) :
    tweenLoop el (pt :: l) s
      = tweenLoop el l
          { s with trace := s.trace ++ [Event.setValue el pt.1 (finishValue pt.2) pt.2.fn] } := rfl

theorem tweenLoop_eq (el : Nat) (l : List (String × Tween)) (s : SchedState) :
    tweenLoop el l s
      = { s with trace := s.trace
            ++ l.map (fun pt => Event.setValue el pt.1 (finishValue pt.2) pt.2.fn) } := by
  induction l generalizing s with
  | nil => cases s; simp [tweenLoop]
  | cons pt l ih =>
      rw [tweenLoop_cons, ih]
      cases s
      simp

theorem completeCallState_trace (s : SchedState) (a : Call) :
    (completeCallState s a).trace = s.trace ++ [Event.complete a.id a.element] := rfl

theorem completeCallState_opts (s : SchedState) (a : Call) :
    (completeCallState s a).opts = s.opts := rfl

theorem checkAnimationShouldBeFinished_eligible (s : SchedState) (a : Call)
    (q : Option QVal) (d : QVal) (h : Eligible s a q d) :
    checkAnimationShouldBeFinished s a q d
      = completeCallState
          (tweenLoop a.element a.tweens (beginStep (validateTweensState s a.id) a)) a := by
  have h' : q = none ∨
      q = some (effQueue a ((validateTweensState s a.id).opts a.optionsId) d) := by
    rw [validateTweensState_opts]; exact h
  simp only [checkAnimationShouldBeFinished]
  rw [if_pos h']

theorem checkAnimationShouldBeFinished_not_eligible (s : SchedState) (a : Call)
    (q : Option QVal) (d : QVal) (h : ¬ Eligible s a q d) :
    checkAnimationShouldBeFinished s a q d = validateTweensState s a.id := by
  have h' : ¬ (q = none ∨
      q = some (effQueue a ((validateTweensState s a.id).opts a.optionsId) d)) := by
    rw [validateTweensState_opts]; exact h
  simp only [checkAnimationShouldBeFinished]
  rw [if_neg h']

theorem beginStep_skip (s : SchedState) (a : Call) (h : ¬ a.flags &&& STARTED = 0) :
    beginStep s a = s := by
  simp only [beginStep]
  rw [if_neg h]

theorem beginStep_trace (s : SchedState) (a : Call) :
    (beginStep s a).trace = s.trace ∨
    (beginStep s a).trace = s.trace ++ [Event.beginEv a.id a.optionsId a.element] := by
  simp only [beginStep, markStarted]
  split
  · split
    · split
      · right; rfl
      · left; rfl
    · left; rfl
  · left; rfl

theorem check_trace_eligible (s : SchedState) (a : Call) (q : Option QVal) (d : QVal)
    (h : Eligible s a q d) :
    ∃ δb, (checkAnimationShouldBeFinished s a q d).trace
        = s.trace ++ δb
            ++ a.tweens.map (fun pt => Event.setValue a.element pt.1 (finishValue pt.2) pt.2.fn)
            ++ [Event.complete a.id a.element]
      ∧ ∀ e ∈ δb, e = Event.beginEv a.id a.optionsId a.element := by
  rw [checkAnimationShouldBeFinished_eligible s a q d h]
  rw [completeCallState_trace, tweenLoop_eq]
  rcases beginStep_trace (validateTweensState s a.id) a with hb | hb
  · refine ⟨[], ?_, by simp⟩
    simp [hb, validateTweensState_trace]
  · refine ⟨[Event.beginEv a.id a.optionsId a.element], ?_, by simp⟩
    simp [hb, validateTweensState_trace]

theorem check_trace_frame (s : SchedState) (a : Call) (q : Option QVal) (d : QVal) :
    ∃ δ, (checkAnimationShouldBeFinished s a q d).trace = s.trace ++ δ
      ∧ ∀ e ∈ δ, EventOf a e := by
  by_cases h : Eligible s a q d
  · obtain ⟨δb, hT, hδb⟩ := check_trace_eligible s a q d h
    refine ⟨δb ++ a.tweens.map
        (fun pt => Event.setValue a.element pt.1 (finishValue pt.2) pt.2.fn)
      ++ [Event.complete a.id a.element], by simp [hT], ?_⟩
    intro e he
    rcases List.mem_append.mp he with he | he
    · rcases List.mem_append.mp he with he | he
      · rw [hδb e he]; exact ⟨rfl, rfl, rfl⟩
      · obtain ⟨pt, _, rfl⟩ := List.mem_map.mp he
        exact rfl
    · rw [List.mem_singleton.mp he]; exact ⟨rfl, rfl⟩
  · rw [checkAnimationShouldBeFinished_not_eligible s a q d h, validateTweensState_trace]
    exact ⟨[], by simp, by simp⟩

theorem mem_map_pres {c : Call} {l : List Call} {f : Call → Call}
    (hf : f c = c) (hc : c ∈ l) : c ∈ l.map f :=
  hf ▸ List.mem_map_of_mem f hc

theorem validateUpd_ne {c : Call} {aid : Nat} (hne : c.id ≠ aid) : validateUpd aid c = c := by
  simp [validateUpd, hne]

theorem validateTweensState_mem_active {s : SchedState} {c : Call} {aid : Nat}
    (hc : c ∈ s.active) (hne : c.id ≠ aid) :
    c ∈ (validateTweensState s aid).active := by
  simp only [validateTweensState]
  split
  · exact mem_map_pres (validateUpd_ne hne) (List.mem_append_left _ hc)
  · exact mem_map_pres (validateUpd_ne hne) hc

theorem validateTweensState_mem_staged {s : SchedState} {c : Call} {aid : Nat}
    (hc : c ∈ s.staged) (hne : c.id ≠ aid) :
    c ∈ (validateTweensState s aid).staged := by
  simp only [validateTweensState]
  split
  case isTrue h =>
    rcases hs : s.staged with _ | ⟨b, t⟩
    · rw [hs] at hc; exact absurd hc (List.not_mem_nil c)
    · rw [hs] at h hc
      simp only [List.head?_cons, Option.map_some', Option.some.injEq] at h
      rcases List.mem_cons.mp hc with rfl | hct
      · exact absurd h hne
      · exact mem_map_pres (validateUpd_ne hne) hct
  case isFalse => exact mem_map_pres (validateUpd_ne hne) hc

theorem markStarted_mem_active {s : SchedState} {c : Call} {aid : Nat}
    (hc : c ∈ s.active) (hne : c.id ≠ aid) :
    c ∈ (markStarted s aid).active :=
  mem_map_pres (by simp [hne]) hc

theorem markStarted_mem_staged {s : SchedState} {c : Call} {aid : Nat}
    (hc : c ∈ s.staged) (hne : c.id ≠ aid) :
    c ∈ (markStarted s aid).staged :=
  mem_map_pres (by simp [hne]) hc

theorem beginStep_mem_active {s : SchedState} {c : Call} {a : Call}
    (hc : c ∈ s.active) (hne : c.id ≠ a.id) :
    c ∈ (beginStep s a).active := by
  simp only [beginStep, markStarted]
  split
  · split
    · split
      · exact mem_map_pres (by simp [hne]) hc
      · exact mem_map_pres (by simp [hne]) hc
    · exact mem_map_pres (by simp [hne]) hc
  · exact hc

theorem beginStep_mem_staged {s : SchedState} {c : Call} {a : Call}
    (hc : c ∈ s.staged) (hne : c.id ≠ a.id) :
    c ∈ (beginStep s a).staged := by
  simp only [beginStep, markStarted]
  split
  · split
    · split
      · exact mem_map_pres (by simp [hne]) hc
      · exact mem_map_pres (by simp [hne]) hc
    · exact mem_map_pres (by simp [hne]) hc
  · exact hc

theorem tweenLoop_active (el : Nat) (l : List (String × Tween)) (s : SchedState) :
    (tweenLoop el l s).active = s.active := by rw [tweenLoop_eq]

theorem tweenLoop_staged (el : Nat) (l : List (String × Tween)) (s : SchedState) :
    (tweenLoop el l s).staged = s.staged := by rw [tweenLoop_eq]

theorem tweenLoop_opts (el : Nat) (l : List (String × Tween)) (s : SchedState) :
    (tweenLoop el l s).opts = s.opts := by rw [tweenLoop_eq]

theorem completeCallState_mem_active {s : SchedState} {c : Call} {a : Call}
    (hc : c ∈ s.active) (hne : c.id ≠ a.id) :
    c ∈ (completeCallState s a).active :=
  List.mem_filter.mpr ⟨hc, by simpa using hne⟩

theorem completeCallState_mem_staged {s : SchedState} {c : Call} {a : Call}
    (hc : c ∈ s.staged) (hne : c.id ≠ a.id) :
    c ∈ (completeCallState s a).staged :=
  List.mem_append_left _ (List.mem_filter.mpr ⟨hc, by simpa using hne⟩)

theorem check_mem_active {s : SchedState} {c : Call} {a : Call} {q : Option QVal} {d : QVal}
    (hc : c ∈ s.active) (hne : c.id ≠ a.id) :
    c ∈ (checkAnimationShouldBeFinished s a q d).active := by
  by_cases h : Eligible s a q d
  · rw [checkAnimationShouldBeFinished_eligible s a q d h]
    exact completeCallState_mem_active
      (by rw [tweenLoop_active]
          exact beginStep_mem_active (validateTweensState_mem_active hc hne) hne) hne
  · rw [checkAnimationShouldBeFinished_not_eligible s a q d h]
    exact validateTweensState_mem_active hc hne

theorem countBegin_append (l1 l2 : List Event) (o : Nat) :
    countBegin (l1 ++ l2) o = countBegin l1 o + countBegin l2 o := by
  simp [countBegin, List.filter_append]

theorem countComplete_append (l1 l2 : List Event) (cid : Nat) :
    countComplete (l1 ++ l2) cid = countComplete l1 cid + countComplete l2 cid := by
  simp [countComplete, List.filter_append]

theorem countSet_append (l1 l2 : List Event) (el : Nat) (p : String) :
    countSet (l1 ++ l2) el p = countSet l1 el p + countSet l2 el p := by
  simp [countSet, List.filter_append]

theorem countBegin_single_beginEv (cid oid el o : Nat) :
    countBegin [Event.beginEv cid oid el] o = if oid = o then 1 else 0 := by
  by_cases h : oid = o <;> simp [countBegin, h]

theorem countBegin_single_complete (cid el o : Nat) :
    countBegin [Event.complete cid el] o = 0 := rfl

theorem countBegin_setValues (o el : Nat) (tw : List (String × Tween)) :
    countBegin (tw.map (fun pt => Event.setValue el pt.1 (finishValue pt.2) pt.2.fn)) o = 0 := by
  induction tw with
  | nil => rfl
  | cons pt tw ih => simpa [countBegin] using ih

theorem countComplete_single_complete (cid el c : Nat) :
    countComplete [Event.complete cid el] c = if cid = c then 1 else 0 := by
  by_cases h : cid = c <;> simp [countComplete, h]

theorem countComplete_setValues (c el : Nat) (tw : List (String × Tween)) :
    countComplete (tw.map (fun pt => Event.setValue el pt.1 (finishValue pt.2) pt.2.fn)) c = 0 := by
  induction tw with
  | nil => rfl
  | cons pt tw ih => simpa [countComplete] using ih

theorem countComplete_of_beginEvs {δ : List Event} {cid oid el c : Nat}
    (h : ∀ e ∈ δ, e = Event.beginEv cid oid el) : countComplete δ c = 0 := by
  induction δ with
  | nil => rfl
  | cons e t ih =>
    rw [h e (List.mem_cons_self e t)]
    simpa [countComplete] using ih (fun e he => h e (List.mem_cons_of_mem _ he))

theorem BeginInv_of {s s' : SchedState} (h : BeginInv s) (ht : s'.trace = s.trace)
    (hb : ∀ o, (s'.opts o).begin = true → (s.opts o).begin = true) : BeginInv s' := by
  intro o
  rw [ht]
  exact ⟨(h o).1, fun hbg => (h o).2 (hb o hbg)⟩

theorem beginStep_inv (s : SchedState) (a : Call) (h : BeginInv s) :
    BeginInv (beginStep s a) ∧
    ∀ o, (s.opts o).started ≤ ((beginStep s a).opts o).started := by
  simp only [beginStep, markStarted]
  split
  case isTrue hfl =>
    split
    case isTrue hst =>
      split
      case isTrue hb =>
        constructor
        · intro o
          by_cases ho : o = a.optionsId
          · subst ho
            have h0 : countBegin s.trace a.optionsId = 0 := (h a.optionsId).2 hb
            refine ⟨?_, ?_⟩
            · show countBegin (s.trace ++ [Event.beginEv a.id a.optionsId a.element])
                a.optionsId ≤ 1
              rw [countBegin_append, h0, countBegin_single_beginEv]
              simp
            · intro hbg
              simp at hbg
          · have hne : a.optionsId ≠ o := fun h' => ho h'.symm
            refine ⟨?_, ?_⟩
            · show countBegin (s.trace ++ [Event.beginEv a.id a.optionsId a.element]) o ≤ 1
              rw [countBegin_append, countBegin_single_beginEv, if_neg hne]
              simpa using (h o).1
            · intro hbg
              show countBegin (s.trace ++ [Event.beginEv a.id a.optionsId a.element]) o = 0
              rw [countBegin_append, countBegin_single_beginEv, if_neg hne]
              have hbg' : (s.opts o).begin = true := by simpa [ho] using hbg
              simpa using (h o).2 hbg'
        · intro o
          by_cases ho : o = a.optionsId
          · subst ho; simp
          · simp [ho]
      case isFalse hb =>
        constructor
        · refine BeginInv_of h rfl ?_
          intro o hbg
          by_cases ho : o = a.optionsId
          · subst ho; simpa using hbg
          · simpa [ho] using hbg
        · intro o
          by_cases ho : o = a.optionsId
          · subst ho; simp
          · simp [ho]
    case isFalse hst =>
      constructor
      · refine BeginInv_of h rfl ?_
        intro o hbg
        by_cases ho : o = a.optionsId
        · subst ho; simpa using hbg
        · simpa [ho] using hbg
      · intro o
        by_cases ho : o = a.optionsId
        · subst ho; simp
        · simp [ho]
  case isFalse hfl =>
    exact ⟨h, fun o => Nat.le_refl _⟩

theorem check_mem_staged {s : SchedState} {c : Call} {a : Call} {q : Option QVal} {d : QVal}
    (hc : c ∈ s.staged) (hne : c.id ≠ a.id) :
    c ∈ (checkAnimationShouldBeFinished s a q d).staged := by
  by_cases h : Eligible s a q d
  · rw [checkAnimationShouldBeFinished_eligible s a q d h]
    exact completeCallState_mem_staged
      (by rw [tweenLoop_staged]
          exact beginStep_mem_staged (validateTweensState_mem_staged hc hne) hne) hne
  · rw [checkAnimationShouldBeFinished_not_eligible s a q d h]
    exact validateTweensState_mem_staged hc hne

theorem BeginInv_append_inert {s' s : SchedState} (h : BeginInv s)
    (hop : s'.opts = s.opts) {δ : List Event} (ht : s'.trace = s.trace ++ δ)
    (hδ : ∀ o, countBegin δ o = 0) : BeginInv s' := by
  intro o
  rw [ht, countBegin_append, hδ o, Nat.add_zero, hop]
  exact h o

theorem check_inv (s : SchedState) (a : Call) (q : Option QVal) (d : QVal) (h : BeginInv s) :
    BeginInv (checkAnimationShouldBeFinished s a q d) ∧
    ∀ o, (s.opts o).started ≤ ((checkAnimationShouldBeFinished s a q d).opts o).started := by
  by_cases he : Eligible s a q d
  · rw [checkAnimationShouldBeFinished_eligible s a q d he]
    have hs1 : BeginInv (validateTweensState s a.id) := by
      intro o
      rw [validateTweensState_trace, validateTweensState_opts]
      exact h o
    obtain ⟨hInv, hMono⟩ := beginStep_inv (validateTweensState s a.id) a hs1
    have htr : (completeCallState
          (tweenLoop a.element a.tweens (beginStep (validateTweensState s a.id) a)) a).trace
        = (beginStep (validateTweensState s a.id) a).trace
          ++ (a.tweens.map (fun pt => Event.setValue a.element pt.1 (finishValue pt.2) pt.2.fn)
              ++ [Event.complete a.id a.element]) := by
      simp [completeCallState_trace, tweenLoop_eq]
    have hop : (completeCallState
          (tweenLoop a.element a.tweens (beginStep (validateTweensState s a.id) a)) a).opts
        = (beginStep (validateTweensState s a.id) a).opts := by
      simp [completeCallState_opts, tweenLoop_opts]
    constructor
    · refine BeginInv_append_inert hInv hop htr ?_
      intro o
      rw [countBegin_append, countBegin_setValues, countBegin_single_complete]
    · intro o
      rw [hop]
      have := hMono o
      rwa [validateTweensState_opts] at this
  · rw [checkAnimationShouldBeFinished_not_eligible s a q d he]
    constructor
    · intro o
      rw [validateTweensState_trace, validateTweensState_opts]
      exact h o
    · intro o
      rw [validateTweensState_opts]

theorem runChecks_cons (s : SchedState) (i : Call × Option QVal × QVal)
    (il : List (Call × Option QVal × QVal)) :
    runChecks s (i :: il) = runChecks (checkAnimationShouldBeFinished s i.1 i.2.1 i.2.2) il := rfl

theorem runChecks_inv (il : List (Call × Option QVal × QVal)) :
    ∀ s : SchedState, BeginInv s →
      BeginInv (runChecks s il) ∧
      ∀ o, (s.opts o).started ≤ ((runChecks s il).opts o).started := by
  induction il with
  | nil => exact fun s h => ⟨h, fun o => Nat.le_refl _⟩
  | cons i il ih =>
    intro s h
    rw [runChecks_cons]
    obtain ⟨h1, h2⟩ := check_inv s i.1 i.2.1 i.2.2 h
    obtain ⟨h3, h4⟩ := ih _ h1
    exact ⟨h3, fun o => Nat.le_trans (h2 o) (h4 o)⟩

theorem check_opts_eligible (s : SchedState) (a : Call) (q : Option QVal) (d : QVal)
    (he : Eligible s a q d) :
    (checkAnimationShouldBeFinished s a q d).opts
      = (beginStep (validateTweensState s a.id) a).opts := by
  rw [checkAnimationShouldBeFinished_eligible s a q d he]
  simp [completeCallState_opts, tweenLoop_opts]

theorem beginStep_transition (s : SchedState) (a : Call)
    (hfl : a.flags &&& STARTED = 0) (hst : (s.opts a.optionsId).started = 0) :
    ((beginStep s a).opts a.optionsId).started = 1 ∧
    ((beginStep s a).opts a.optionsId).first = some a.id ∧
    ((beginStep s a).opts a.optionsId).begin = false := by
  simp only [beginStep, markStarted]
  rw [if_pos hfl, if_pos hst]
  by_cases hb : (s.opts a.optionsId).begin = true
  · rw [if_pos hb]
    simp [hst]
  · rw [if_neg hb]
    simp only [Bool.not_eq_true] at hb
    simp [hst, hb]

theorem check_countComplete (s : SchedState) (a : Call) (q : Option QVal) (d : QVal) :
    countComplete (checkAnimationShouldBeFinished s a q d).trace a.id
      = countComplete s.trace a.id + (if Eligible s a q d then 1 else 0) := by
  by_cases he : Eligible s a q d
  · obtain ⟨δb, hT, hδb⟩ := check_trace_eligible s a q d he
    rw [hT, if_pos he, countComplete_append, countComplete_append, countComplete_append,
      countComplete_of_beginEvs hδb, countComplete_setValues, countComplete_single_complete,
      if_pos rfl]
  · rw [checkAnimationShouldBeFinished_not_eligible s a q d he, validateTweensState_trace,
      if_neg he, Nat.add_zero]

theorem drainNewFuel_trace : ∀ (f : Nat) (s : SchedState), (drainNewFuel f s).trace = s.trace := by
  intro f
  induction f with
  | zero => intro s; rfl
  | succ f ih =>
    intro s
    simp only [drainNewFuel]
    split
    · rfl
    · rw [ih, validateTweensState_trace]

theorem finishLoop_succ_some (fuel : Nat) (s : SchedState) (aid : Nat) (elements : Elements)
    (q : Option QVal) (d : QVal) (fa : Bool) :
    finishLoop (fuel + 1) s (some aid) elements q d fa
      = if fa = false ∧ (s.staged.head?.map Call.id) = some aid then s
        else
          match findCall s aid with
          | none => s
          | some activeCall =>
            finishLoop fuel
              (if elemAbsent elements || elemIncludesB elements activeCall.element then
                checkAnimationShouldBeFinished s activeCall q d
               else s)
              ((nextIdOf (s.active ++ s.staged) aid) <|>
                ((if elemAbsent elements || elemIncludesB elements activeCall.element then
                    checkAnimationShouldBeFinished s activeCall q d
                  else s).staged.head?.map Call.id))
              elements q d fa := rfl

theorem finishLoop_found (fuel : Nat) (s : SchedState) (aid : Nat) (elements : Elements)
    (q : Option QVal) (d : QVal) (fa : Bool) (a : Call)
    (hguard : ¬(fa = false ∧ (s.staged.head?.map Call.id) = some aid))
    (hf : findCall s aid = some a) :
    finishLoop (fuel + 1) s (some aid) elements q d fa
      = finishLoop fuel
          (if elemAbsent elements || elemIncludesB elements a.element then
            checkAnimationShouldBeFinished s a q d
           else s)
          ((nextIdOf (s.active ++ s.staged) aid) <|>
            ((if elemAbsent elements || elemIncludesB elements a.element then
                checkAnimationShouldBeFinished s a q d
              else s).staged.head?.map Call.id))
          elements q d fa := by
  rw [finishLoop_succ_some, if_neg hguard, hf]

theorem finishLoop_stuck (fuel : Nat) (s : SchedState) (aid : Nat) (elements : Elements)
    (q : Option QVal) (d : QVal) (fa : Bool) (hf : findCall s aid = none) :
    finishLoop (fuel + 1) s (some aid) elements q d fa = s := by
  rw [finishLoop_succ_some]
  split
  · rfl
  · rw [hf]

theorem EventElemIn_of_EventOf {es : List Nat} {a : Call} (ha : a.element ∈ es) {e : Event}
    (h : EventOf a e) : EventElemIn es e := by
  cases e with
  | beginEv cid oid el => exact h.2.2 ▸ ha
  | setValue el p v fn => exact h ▸ ha
  | complete cid el => exact h.2 ▸ ha
  | thenChain => trivial
  | resolveCall => trivial

theorem finishLoop_frame (es : List Nat) :
    ∀ (fuel : Nat) (s : SchedState) (curr : Option Nat) (q : Option QVal) (d : QVal) (fa : Bool),
      ∃ δ, (finishLoop fuel s curr (Elements.elems es) q d fa).trace = s.trace ++ δ
        ∧ ∀ e ∈ δ, EventElemIn es e := by
  intro fuel
  induction fuel with
  | zero =>
    intro s curr q d fa
    exact ⟨[], by simp [finishLoop], by simp⟩
  | succ fuel ih =>
    intro s curr q d fa
    rcases curr with _ | aid
    · exact ⟨[], by simp [finishLoop], by simp⟩
    · by_cases hguard : (fa = false ∧ (s.staged.head?.map Call.id) = some aid)
      · rw [finishLoop_succ_some, if_pos hguard]
        exact ⟨[], by simp, by simp⟩
      · rcases hf : findCall s aid with _ | a
        · rw [finishLoop_stuck _ _ _ _ _ _ _ hf]
          exact ⟨[], by simp, by simp⟩
        · rw [finishLoop_found _ _ _ _ _ _ _ _ hguard hf]
          by_cases hin : (elemAbsent (Elements.elems es)
              || elemIncludesB (Elements.elems es) a.element) = true
          · rw [if_pos hin]
            have ha : a.element ∈ es := by
              simpa [elemAbsent, elemIncludesB] using hin
            obtain ⟨δ1, h1, h1e⟩ := check_trace_frame s a q d
            obtain ⟨δ2, h2, h2e⟩ := ih (checkAnimationShouldBeFinished s a q d) _ q d fa
            refine ⟨δ1 ++ δ2, by rw [h2, h1, List.append_assoc], ?_⟩
            intro e he
            rcases List.mem_append.mp he with he | he
            · exact EventElemIn_of_EventOf ha (h1e e he)
            · exact h2e e he
          · rw [if_neg hin]
            exact ih s _ q d fa

theorem EventOfAny_of_EventOf {a : Call} {l : List Call} (hal : a ∈ l) {e : Event}
    (h : EventOf a e) : EventOfAny l e := by
  cases e with
  | beginEv cid oid el => exact h.1 ▸ List.mem_map_of_mem _ hal
  | setValue el p v fn => exact h ▸ List.mem_map_of_mem _ hal
  | complete cid el => exact h.1 ▸ List.mem_map_of_mem _ hal
  | thenChain => trivial
  | resolveCall => trivial

theorem EventOfAny_cons {a : Call} {l : List Call} {e : Event} (h : EventOfAny l e) :
    EventOfAny (a :: l) e := by
  cases e with
  | beginEv cid oid el => exact List.mem_cons_of_mem _ h
  | setValue el p v fn => exact List.mem_cons_of_mem _ h
  | complete cid el => exact List.mem_cons_of_mem _ h
  | thenChain => trivial
  | resolveCall => trivial

theorem boundFold_frame (q : Option QVal) (d : QVal) :
    ∀ (l : List Call) (s : SchedState),
      (∀ c ∈ s.active, c.id ∉ l.map Call.id →
        c ∈ (l.foldl (fun acc a => checkAnimationShouldBeFinished acc a q d) s).active) ∧
      (∀ c ∈ s.staged, c.id ∉ l.map Call.id →
        c ∈ (l.foldl (fun acc a => checkAnimationShouldBeFinished acc a q d) s).staged) ∧
      ∃ δ, (l.foldl (fun acc a => checkAnimationShouldBeFinished acc a q d) s).trace
            = s.trace ++ δ
        ∧ ∀ e ∈ δ, EventOfAny l e := by
  intro l
  induction l with
  | nil =>
    intro s
    exact ⟨fun c hc _ => hc, fun c hc _ => hc, [], by simp, by simp⟩
  | cons a l ih =>
    intro s
    refine ⟨?_, ?_, ?_⟩
    · intro c hc hid
      have h1 : ¬(c.id = a.id ∨ c.id ∈ l.map Call.id) := by simpa using hid
      push_neg at h1
      exact (ih _).1 c (check_mem_active hc h1.1) h1.2
    · intro c hc hid
      have h1 : ¬(c.id = a.id ∨ c.id ∈ l.map Call.id) := by simpa using hid
      push_neg at h1
      exact (ih _).2.1 c (check_mem_staged hc h1.1) h1.2
    · obtain ⟨δ1, h1, h1e⟩ := check_trace_frame s a q d
      obtain ⟨_, _, δ2, h2, h2e⟩ := ih (checkAnimationShouldBeFinished s a q d)
      refine ⟨δ1 ++ δ2, by simp only [List.foldl_cons]; rw [h2, h1, List.append_assoc], ?_⟩
      intro e he
      rcases List.mem_append.mp he with he | he
      · exact EventOfAny_of_EventOf (List.mem_cons_self a l) (h1e e he)
      · exact EventOfAny_cons (h2e e he)

theorem finish_noop (fuel : Nat) (s : SchedState) (elements : Elements) (ph hr : Bool)
    (mq : Option (String ⊕ Bool)) (fa : Bool) (d : QVal)
    (h : elemLength elements = 0) :
    finish fuel s elements ph hr mq fa d = s := by
  simp only [finish]
  rw [if_pos h]

theorem finish_elems_decomp (fuel : Nat) (s : SchedState) (es : List Nat) (ph hr : Bool)
    (mq : Option (String ⊕ Bool)) (fa : Bool) (d : QVal)
    (h : ¬ elemLength (Elements.elems es) = 0) :
    ∃ δp, (finish fuel s (Elements.elems es) ph hr mq fa d).trace
        = (finishLoop fuel (drainNewFuel s.staged.length s)
            (((drainNewFuel s.staged.length s).active
                ++ (drainNewFuel s.staged.length s).staged).head?.map Call.id)
            (Elements.elems es) (validateQueue mq) d
            (if mq = some (Sum.inr true) then true else fa)).trace ++ δp
      ∧ ∀ e ∈ δp, e = Event.resolveCall := by
  simp only [finish]
  rw [if_neg h]
  split
  · split
    · exact ⟨[Event.resolveCall], rfl, by simp⟩
    · exact ⟨[], by simp, by simp⟩
  · exact ⟨[], by simp, by simp⟩

theorem finish_anim_decomp (fuel : Nat) (s : SchedState) (l : List Call) (es : List Nat)
    (ht ph hr : Bool) (mq : Option (String ⊕ Bool)) (fa : Bool) (d : QVal)
    (h : ¬ elemLength (Elements.anim (some l) es ht) = 0) :
    ∃ δp, (finish fuel s (Elements.anim (some l) es ht) ph hr mq fa d).active
        = (l.foldl (fun acc a => checkAnimationShouldBeFinished acc a (validateQueue mq) d) s).active
      ∧ (finish fuel s (Elements.anim (some l) es ht) ph hr mq fa d).staged
        = (l.foldl (fun acc a => checkAnimationShouldBeFinished acc a (validateQueue mq) d) s).staged
      ∧ (finish fuel s (Elements.anim (some l) es ht) ph hr mq fa d).trace
        = (l.foldl (fun acc a => checkAnimationShouldBeFinished acc a (validateQueue mq) d) s).trace
          ++ δp
      ∧ ∀ e ∈ δp, e = Event.thenChain ∨ e = Event.resolveCall := by
  cases ht
  · simp only [finish]
    rw [if_neg h]
    split
    · split
      · exact ⟨[Event.resolveCall], rfl, rfl, rfl, by simp⟩
      · exact ⟨[], rfl, rfl, by simp, by simp⟩
    · exact ⟨[], rfl, rfl, by simp, by simp⟩
  · simp only [finish]
    rw [if_neg h]
    split
    · exact ⟨[Event.thenChain], rfl, rfl, rfl, by simp⟩
    · exact ⟨[], rfl, rfl, by simp, by simp⟩

theorem validateTweensState_concat (s : SchedState) (aid : Nat) :
    (validateTweensState s aid).active ++ (validateTweensState s aid).staged
      = (s.active ++ s.staged).map (validateUpd aid) := by
  simp only [validateTweensState]
  split
  · rw [← List.map_append, List.append_assoc, List.take_append_drop]
  · rw [← List.map_append]

/-- C1: for every finish-eligible call, each tween that has a pattern has its
committed value equal to the string built by walking the pattern template
index by index, substituting the final keyframe's value when non-null and the
pattern's literal otherwise; and the entire finish check is independent of
the call's accumulated elapsed time. -/
theorem C1_finalization_pattern_subst :
    ∀ (s : SchedState) (a : Call) (q : Option QVal) (d : QVal),
      (∀ t0 : Nat, checkAnimationShouldBeFinished s { a with timeStart := t0 } q d
          = checkAnimationShouldBeFinished s a q d) ∧
      (Eligible s a q d →
        ∀ (p : String) (t : Tween) (pat : List String), (p, t) ∈ a.tweens →
          t.sequence.pattern = some pat →
          Event.setValue a.element p (patternSubst pat (t.sequence.frames.getLastD [])) t.fn
            ∈ (checkAnimationShouldBeFinished s a q d).trace) := by
  intro s a q d
  constructor
  · intro t0; rfl
  · intro he p t pat hmem hpat
    obtain ⟨δb, hT, _⟩ := check_trace_eligible s a q d he
    rw [hT]
    have hm : Event.setValue a.element p (finishValue t) t.fn
        ∈ a.tweens.map (fun pt => Event.setValue a.element pt.1 (finishValue pt.2) pt.2.fn) :=
      List.mem_map_of_mem _ hmem
    have hfv : finishValue t = patternSubst pat (t.sequence.frames.getLastD []) := by
      simp [finishValue, hpat]
    rw [hfv] at hm
    exact List.mem_append_left _ (List.mem_append_right _ hm)

/-- Witness for C1: the spec's own example — property `x`, pattern
`["", "px"]`, single final keyframe `[100]` — commits the literal `"100px"`. -/
theorem C1_witness :
    Event.setValue 10 "x" "100px" 7
      ∈ (checkAnimationShouldBeFinished exState exCall none QVal.noQueue).trace := by
  have h := (C1_finalization_pattern_subst exState exCall none QVal.noQueue).2
    (Or.inl rfl) "x" exTween ["", "px"] (by simp [exCall]) rfl
  have e1 : patternSubst ["", "px"] (exTween.sequence.frames.getLastD []) = "100px" := by
    decide
  rw [e1] at h
  exact h

/-- C2: across any sequence of finish checks, each options object sees
`beginCall` at most once (and none while `begin` is still attached),
`_started` only ever increases, and an eligible not-yet-STARTED call whose
group has `_started = 0` produces the 0 → 1 transition: `_started` becomes 1,
`_first` is set to that call, and `begin` is cleared. -/
theorem C2_begin_once :
    ∀ (s : SchedState) (il : List (Call × Option QVal × QVal)), BeginInv s →
      BeginInv (runChecks s il) ∧
      (∀ o, (s.opts o).started ≤ ((runChecks s il).opts o).started) ∧
      (∀ (a : Call) (q : Option QVal) (d : QVal), Eligible s a q d →
        a.flags &&& STARTED = 0 → (s.opts a.optionsId).started = 0 →
          ((checkAnimationShouldBeFinished s a q d).opts a.optionsId).started = 1 ∧
          ((checkAnimationShouldBeFinished s a q d).opts a.optionsId).first = some a.id ∧
          ((checkAnimationShouldBeFinished s a q d).opts a.optionsId).begin = false) := by
  intro s il h
  obtain ⟨h1, h2⟩ := runChecks_inv il s h
  refine ⟨h1, h2, ?_⟩
  intro a q d he hfl hst
  rw [check_opts_eligible s a q d he]
  exact beginStep_transition (validateTweensState s a.id) a hfl
    (by rw [validateTweensState_opts]; exact hst)

/-- Witness for C2: finishing the same two-member group twice keeps the
begin-once invariant from a fresh state. -/
theorem C2_witness :
    BeginInv (runChecks exState
      [(exCall, none, QVal.noQueue), (exCallStarted, none, QVal.noQueue)]) :=
  (C2_begin_once exState [(exCall, none, QVal.noQueue), (exCallStarted, none, QVal.noQueue)]
    (by
      intro o
      exact ⟨by simp [exState, countBegin], fun _ => by simp [exState, countBegin]⟩)).1

/-- C3: the finish check force-completes a call (invokes `completeCall` on
it) exactly when no queue filter was specified or the filter equals the
call's effective queue (`call.queue ?? options.queue ?? defaultQueue`). -/
theorem C3_queue_filter (s : SchedState) (a : Call) (q : Option QVal) (d : QVal) :
    countComplete (checkAnimationShouldBeFinished s a q d).trace a.id
      = countComplete s.trace a.id
        + (if q = none ∨ q = some (effQueue a (s.opts a.optionsId) d) then 1 else 0) :=
  check_countComplete s a q d

/-- Witness for C3: filter `"x"` against a call whose effective queue is the
process default. -/
theorem C3_witness :
    countComplete (checkAnimationShouldBeFinished exState exCall
        (some (QVal.name "x")) QVal.noQueue).trace exCall.id
      = countComplete exState.trace exCall.id
        + (if (some (QVal.name "x") = none ∨ some (QVal.name "x")
              = some (effQueue exCall (exState.opts exCall.optionsId) QVal.noQueue))
           then 1 else 0) :=
  C3_queue_filter exState exCall (some (QVal.name "x")) QVal.noQueue

/-- C4: in a global pass over `exState4` (call A with id 1 active, nothing
staged), where A's complete callback enqueues call B (id 2) mid-pass,
`finish` with `finishAll = false` retires A but leaves B staged — the
traversal stops at the firstNew boundary — while `finishAll = true` retires
both A and B in the same pass. -/
theorem C4_firstNew_boundary :
    (countComplete (finish 5 exState4 (Elements.elems [10, 20]) false false none false
        QVal.noQueue).trace 1 = 1 ∧
     countComplete (finish 5 exState4 (Elements.elems [10, 20]) false false none false
        QVal.noQueue).trace 2 = 0 ∧
     (finish 5 exState4 (Elements.elems [10, 20]) false false none false
        QVal.noQueue).staged.map Call.id = [2]) ∧
    (countComplete (finish 5 exState4 (Elements.elems [10, 20]) false false none true
        QVal.noQueue).trace 1 = 1 ∧
     countComplete (finish 5 exState4 (Elements.elems [10, 20]) false false none true
        QVal.noQueue).trace 2 = 1) := by
  decide

/-- C5 counterexample: applying the finish check a second time to the same,
now STARTED, call re-invokes `completeCall` (two invocations in total) and
re-commits the final value via `setPropertyValue` (two commits in total),
refuting "invokes completeCall at most once in total and never re-commits
final values". -/
theorem C5_counterexample :
    countComplete
      (checkAnimationShouldBeFinished
        (checkAnimationShouldBeFinished exState exCall none QVal.noQueue)
        exCallStarted none QVal.noQueue).trace 1 = 2 ∧
    countSet
      (checkAnimationShouldBeFinished
        (checkAnimationShouldBeFinished exState exCall none QVal.noQueue)
        exCallStarted none QVal.noQueue).trace 10 "x" = 2 := by
  decide

/-- C5 (amended): re-finishing an already-STARTED call is idempotent only in
the begin block — the Options object is untouched and no second `beginCall`
occurs — but when the call is still queue-eligible the finalization loop and
`completeCall` do run again; deduplication of the complete callback is
delegated to the external `completeCall`, not performed by the finish
check. -/
theorem C5_started_skips_begin_only :
    ∀ (s : SchedState) (a : Call) (q : Option QVal) (d : QVal),
      ¬ a.flags &&& STARTED = 0 →
        (checkAnimationShouldBeFinished s a q d).opts = s.opts ∧
        (∀ o, countBegin (checkAnimationShouldBeFinished s a q d).trace o
            = countBegin s.trace o) ∧
        (Eligible s a q d →
          countComplete (checkAnimationShouldBeFinished s a q d).trace a.id
            = countComplete s.trace a.id + 1) := by
  intro s a q d hfl
  refine ⟨?_, ?_, ?_⟩
  · by_cases he : Eligible s a q d
    · rw [check_opts_eligible s a q d he, beginStep_skip _ _ hfl, validateTweensState_opts]
    · rw [checkAnimationShouldBeFinished_not_eligible s a q d he, validateTweensState_opts]
  · intro o
    by_cases he : Eligible s a q d
    · rw [checkAnimationShouldBeFinished_eligible s a q d he, beginStep_skip _ _ hfl]
      have htr : (completeCallState
            (tweenLoop a.element a.tweens (validateTweensState s a.id)) a).trace
          = s.trace
            ++ (a.tweens.map (fun pt => Event.setValue a.element pt.1 (finishValue pt.2) pt.2.fn)
              ++ [Event.complete a.id a.element]) := by
        simp [completeCallState_trace, tweenLoop_eq, validateTweensState_trace]
      rw [htr, countBegin_append, countBegin_append, countBegin_setValues,
        countBegin_single_complete]
      simp
    · rw [checkAnimationShouldBeFinished_not_eligible s a q d he, validateTweensState_trace]
  · intro he
    rw [check_countComplete s a q d, if_pos he]

/-- Witness for C5 amended, at the STARTED call. -/
theorem C5_witness :
    (checkAnimationShouldBeFinished exState exCallStarted none QVal.noQueue).opts
        = exState.opts ∧
    (∀ o, countBegin (checkAnimationShouldBeFinished exState exCallStarted none
        QVal.noQueue).trace o = countBegin exState.trace o) ∧
    (Eligible exState exCallStarted none QVal.noQueue →
      countComplete (checkAnimationShouldBeFinished exState exCallStarted none
          QVal.noQueue).trace exCallStarted.id
        = countComplete exState.trace exCallStarted.id + 1) :=
  C5_started_skips_begin_only exState exCallStarted none QVal.noQueue (by decide)

/-- C6 counterexample: a finish check with a non-matching queue filter still
runs `validateTweens` first, so an unresolved call's tween state is resolved
(its validated flag flips) even though no finish effect happens — refuting
"leaves that call entirely untouched". -/
theorem C6_counterexample :
    ¬ Eligible exState6 exCallUnvalidated (some (QVal.name "x")) QVal.noQueue ∧
    exCallUnvalidated.validated = false ∧
    (checkAnimationShouldBeFinished exState6 exCallUnvalidated
        (some (QVal.name "x")) QVal.noQueue).active.map Call.validated = [true] ∧
    (checkAnimationShouldBeFinished exState6 exCallUnvalidated
        (some (QVal.name "x")) QVal.noQueue).trace = [] := by
  decide

/-- C6 (amended): when the queue filter does not match, the finish check
leaves the call untouched except for the lazy tween validation step: no
event is emitted (no begin, no value commit, no completeCall), the Options
store is unchanged, and the physical list is unchanged except that the call
may be marked validated (and the staging boundary advanced past it). -/
theorem C6_mismatch_untouched_except_validation :
    ∀ (s : SchedState) (a : Call) (q : Option QVal) (d : QVal),
      ¬ Eligible s a q d →
        (checkAnimationShouldBeFinished s a q d).trace = s.trace ∧
        (checkAnimationShouldBeFinished s a q d).opts = s.opts ∧
        (checkAnimationShouldBeFinished s a q d).active
            ++ (checkAnimationShouldBeFinished s a q d).staged
          = (s.active ++ s.staged).map (validateUpd a.id) := by
  intro s a q d he
  rw [checkAnimationShouldBeFinished_not_eligible s a q d he]
  exact ⟨validateTweensState_trace s a.id, validateTweensState_opts s a.id,
    validateTweensState_concat s a.id⟩

/-- Witness for C6 amended, at the unresolved call under filter `"x"`. -/
theorem C6_witness :
    (checkAnimationShouldBeFinished exState6 exCallUnvalidated
        (some (QVal.name "x")) QVal.noQueue).trace = exState6.trace ∧
    (checkAnimationShouldBeFinished exState6 exCallUnvalidated
        (some (QVal.name "x")) QVal.noQueue).opts = exState6.opts ∧
    (checkAnimationShouldBeFinished exState6 exCallUnvalidated
        (some (QVal.name "x")) QVal.noQueue).active
        ++ (checkAnimationShouldBeFinished exState6 exCallUnvalidated
            (some (QVal.name "x")) QVal.noQueue).staged
      = (exState6.active ++ exState6.staged).map (validateUpd exCallUnvalidated.id) :=
  C6_mismatch_untouched_except_validation exState6 exCallUnvalidated
    (some (QVal.name "x")) QVal.noQueue (by decide)

/-- C7: finishing a bound animation set touches only that set's calls: every
active or staged call whose id is outside the set stays in its list
unchanged, and every event of the pass is attributable to a member of the
set (or is promise plumbing) — the global traversal is not used. -/
theorem C7_bound_set_only :
    ∀ (fuel : Nat) (s : SchedState) (l : List Call) (es : List Nat) (ht ph hr : Bool)
      (mq : Option (String ⊕ Bool)) (fa : Bool) (d : QVal),
      (∀ c ∈ s.active, c.id ∉ l.map Call.id →
        c ∈ (finish fuel s (Elements.anim (some l) es ht) ph hr mq fa d).active) ∧
      (∀ c ∈ s.staged, c.id ∉ l.map Call.id →
        c ∈ (finish fuel s (Elements.anim (some l) es ht) ph hr mq fa d).staged) ∧
      ∃ δ, (finish fuel s (Elements.anim (some l) es ht) ph hr mq fa d).trace = s.trace ++ δ
        ∧ ∀ e ∈ δ, EventOfAny l e := by
  intro fuel s l es ht ph hr mq fa d
  by_cases hlen : elemLength (Elements.anim (some l) es ht) = 0
  · rw [finish_noop fuel s _ ph hr mq fa d hlen]
    exact ⟨fun c hc _ => hc, fun c hc _ => hc, [], by simp, by simp⟩
  · obtain ⟨δp, hA, hS, hT, hTe⟩ := finish_anim_decomp fuel s l es ht ph hr mq fa d hlen
    obtain ⟨bA, bS, δ, bT, bTe⟩ := boundFold_frame (validateQueue mq) d l s
    refine ⟨?_, ?_, ⟨δ ++ δp, ?_, ?_⟩⟩
    · intro c hc hid; rw [hA]; exact bA c hc hid
    · intro c hc hid; rw [hS]; exact bS c hc hid
    · rw [hT, bT, List.append_assoc]
    · intro e he
      rcases List.mem_append.mp he with he | he
      · exact bTe e he
      · rcases hTe e he with rfl | rfl
        · trivial
        · trivial

/-- Witness for C7: finishing a bound set containing only call 1 leaves the
unrelated active call 2 in place. -/
theorem C7_witness :
    exCallB ∈ (finish 3 exState7 (Elements.anim (some [exCall]) [10] false)
        true true none false QVal.noQueue).active :=
  (C7_bound_set_only 3 exState7 [exCall] [10] false true true none false QVal.noQueue).1
    exCallB (by simp [exState7]) (by decide)

/-- C8: a finish invocation whose element set is absent or empty returns
immediately, leaving the entire scheduler state (lists, options, trace)
untouched and invoking no callback or resolver. -/
theorem C8_empty_noop :
    ∀ (fuel : Nat) (s : SchedState) (elements : Elements) (ph hr : Bool)
      (mq : Option (String ⊕ Bool)) (fa : Bool) (d : QVal),
      elemLength elements = 0 → finish fuel s elements ph hr mq fa d = s :=
  finish_noop

/-- Witness for C8, at an absent element set. -/
theorem C8_witness :
    elemLength Elements.undef = 0 ∧
    finish 3 exState Elements.undef true true none false QVal.noQueue = exState :=
  ⟨rfl, C8_empty_noop 3 exState Elements.undef true true none false QVal.noQueue rfl⟩

/-- C9: for every finish-eligible call, a tween whose sequence has no
pattern still gets `setPropertyValue` invoked for its property, with the
empty string as the committed value. -/
theorem C9_no_pattern_empty_string :
    ∀ (s : SchedState) (a : Call) (q : Option QVal) (d : QVal),
      Eligible s a q d →
      ∀ (p : String) (t : Tween), (p, t) ∈ a.tweens → t.sequence.pattern = none →
        Event.setValue a.element p "" t.fn
          ∈ (checkAnimationShouldBeFinished s a q d).trace := by
  intro s a q d he p t hmem hpat
  obtain ⟨δb, hT, _⟩ := check_trace_eligible s a q d he
  rw [hT]
  have hm : Event.setValue a.element p (finishValue t) t.fn
      ∈ a.tweens.map (fun pt => Event.setValue a.element pt.1 (finishValue pt.2) pt.2.fn) :=
    List.mem_map_of_mem _ hmem
  have hfv : finishValue t = "" := by simp [finishValue, hpat]
  rw [hfv] at hm
  exact List.mem_append_left _ (List.mem_append_right _ hm)

/-- Witness for C9, at the pattern-less call. -/
theorem C9_witness :
    Event.setValue 11 "y" "" 8
      ∈ (checkAnimationShouldBeFinished exState9 exCallNoPat none QVal.noQueue).trace :=
  C9_no_pattern_empty_string exState9 exCallNoPat none QVal.noQueue
    (Or.inl rfl) "y" exTweenNoPat (by simp [exCallNoPat]) rfl

/-- C10: in the global sweep branch, every event of the pass (begin, value
commit, completeCall) targets an element of the provided element set — no
unrestricted "finish everything" sweep can result from it. -/
theorem C10_global_sweep_element_filter :
    ∀ (fuel : Nat) (s : SchedState) (es : List Nat) (ph hr : Bool)
      (mq : Option (String ⊕ Bool)) (fa : Bool) (d : QVal),
      ∃ δ, (finish fuel s (Elements.elems es) ph hr mq fa d).trace = s.trace ++ δ
        ∧ ∀ e ∈ δ, EventElemIn es e := by
  intro fuel s es ph hr mq fa d
  by_cases hlen : elemLength (Elements.elems es) = 0
  · rw [finish_noop fuel s _ ph hr mq fa d hlen]
    exact ⟨[], by simp, by simp⟩
  · obtain ⟨δp, hp, hpe⟩ := finish_elems_decomp fuel s es ph hr mq fa d hlen
    obtain ⟨δ, hδ, hδe⟩ := finishLoop_frame es fuel (drainNewFuel s.staged.length s)
      ((((drainNewFuel s.staged.length s).active
          ++ (drainNewFuel s.staged.length s).staged).head?).map Call.id)
      (validateQueue mq) d (if mq = some (Sum.inr true) then true else fa)
    refine ⟨δ ++ δp, ?_, ?_⟩
    · rw [hp, hδ, drainNewFuel_trace, List.append_assoc]
    · intro e he
      rcases List.mem_append.mp he with he | he
      · exact hδe e he
      · rw [hpe e he]; trivial

/-- Witness for C10, at the boundary scenario state. -/
theorem C10_witness :
    ∃ δ, (finish 5 exState4 (Elements.elems [10, 20]) false false none false
        QVal.noQueue).trace = exState4.trace ++ δ ∧ ∀ e ∈ δ, EventElemIn [10, 20] e :=
  C10_global_sweep_element_filter 5 exState4 [10, 20] false false none false QVal.noQueue
